import Mathlib

/-
Verification of the embedded-mode (simulation-mode) Threat Intelligence Graph
Store of backend/data_layer/neo4j_connector.py.

The embedding models the in-memory state of `Neo4jConnector` in simulation
mode: a Python dict from node id to `ThreatNode` is modelled as an ordered
association list with dict update semantics (`dictInsert` replaces the first
entry with a matching key in place, otherwise appends), and the relationship
list is a plain ordered sequence.  Property values (Python `Any`, produced by
the ingestion pipeline as strings or `None`) are modelled by `PValue`.
Python `str.strip` is modelled by `pyStrip`, and `float(...)` applied to the
`cvss_score` metadata string is modelled by `parsePyFloat`, an exact
rational parser for optionally signed decimal literals (the crawler declares
`metadata : Dict[str, str]` and always stores `cvss_score` via `str(score)`).
-/

namespace Vajra

inductive PValue where
  | vStr : String → PValue
  | vNone : PValue
deriving DecidableEq, Repr

structure ThreatNode where
  node_id : String
  node_type : String
  properties : List (String × PValue)
deriving DecidableEq, Repr

structure ThreatRelationship where
  source_id : String
  target_id : String
  relationship_type : String
  properties : List (String × PValue)
deriving DecidableEq, Repr

/-- Embedded-mode state of `Neo4jConnector`: the `self.nodes` dict (as an
ordered association list keyed by node id) and the `self.relationships` list. -/
structure Neo4jState where
  nodes : List (String × ThreatNode)
  relationships : List ThreatRelationship
deriving DecidableEq, Repr

/-- Python dict assignment `m[k] = v`: replace the first entry whose key is
`k` in place, otherwise append a fresh entry at the end. -/
def dictInsert {β : Type} : List (String × β) → String → β → List (String × β)
  | [], k, v => [(k, v)]
  | (k', v') :: rest, k, v =>
    if k' = k then (k, v) :: rest else (k', v') :: dictInsert rest k v

/-- Simulation-mode `Neo4jConnector.create_node`: `self.nodes[node.node_id] = node`. -/
def create_node (st : Neo4jState) (node : ThreatNode) : Neo4jState :=
  { st with nodes := dictInsert st.nodes node.node_id node }

/-- Simulation-mode `Neo4jConnector.create_relationship`: `self.relationships.append(rel)`. -/
def create_relationship (st : Neo4jState) (rel : ThreatRelationship) : Neo4jState :=
  { st with relationships := st.relationships ++ [rel] }

/-- Simulation-mode `Neo4jConnector.get_node`: `self.nodes.get(node_id)`. -/
def get_node (st : Neo4jState) (node_id : String) : Option ThreatNode :=
  st.nodes.lookup node_id

/-- Simulation-mode `Neo4jConnector.clear_database`: both collections emptied. -/
def clear_database (_st : Neo4jState) : Neo4jState :=
  ⟨[], []⟩

/-- The relationship-type filter of `find_related_nodes`:
`relationship_type is None or rel.relationship_type == relationship_type`. -/
def relMatchesB (relationship_type : Option String) (rel : ThreatRelationship) : Bool :=
  match relationship_type with
  | none => true
  | some t => rel.relationship_type == t

/-- The `for rel in self.relationships` accumulation loop of simulation-mode
`find_related_nodes`. -/
def relatedLoop (st : Neo4jState) (node_id : String) (relationship_type : Option String) :
    List ThreatRelationship → List ThreatNode
  | [] => []
  | rel :: rest =>
    if rel.source_id = node_id ∧ relMatchesB relationship_type rel then
      match st.nodes.lookup rel.target_id with
      | some n => n :: relatedLoop st node_id relationship_type rest
      | none => relatedLoop st node_id relationship_type rest
    else relatedLoop st node_id relationship_type rest

/-- Simulation-mode `Neo4jConnector.find_related_nodes`.  The Python body
iterates once over `self.relationships`; `max_depth` is accepted but unused. -/
def find_related_nodes (st : Neo4jState) (node_id : String)
    (relationship_type : Option String) (max_depth : Nat) : List ThreatNode :=
  relatedLoop st node_id relationship_type st.relationships

/-- The list of `(new_path, new_visited)` pairs appended to the BFS queue for
one popped entry: relationships whose `source_id` is the path's last node and
whose `target_id` is not in this path's visited set, in relationship order. -/
def pathExtensions (rels : List ThreatRelationship) (path visited : List String)
    (current : String) : List (List String × List String) :=
  rels.filterMap fun rel =>
    if rel.source_id = current ∧ rel.target_id ∉ visited then
      some (path ++ [rel.target_id], visited ++ [rel.target_id])
    else none

/-- The `while queue and len(paths) < 10` BFS loop of simulation-mode
`find_attack_paths`, with an explicit fuel bounding the number of iterations
(the Python loop terminates because every queue entry is a simple path). -/
def bfsLoop (rels : List ThreatRelationship) (target_id : String) (max_length : Nat) :
    Nat → List (List String) → List (List String × List String) → List (List String)
  | _, paths, [] => paths
  | 0, paths, _ :: _ => paths
  | fuel + 1, paths, (path, visited) :: rest =>
    if 10 ≤ paths.length then paths
    else if path.getLastD "" = target_id then
      bfsLoop rels target_id max_length fuel (paths ++ [path]) rest
    else if max_length ≤ path.length then
      bfsLoop rels target_id max_length fuel paths rest
    else
      bfsLoop rels target_id max_length fuel paths
        (rest ++ pathExtensions rels path visited (path.getLastD ""))

/-- Fuel that dominates the number of BFS loop iterations: the queue is a
tree of simple-path extensions of branching at most `rels.length` and depth
at most `max_length`. -/
def bfsFuel (st : Neo4jState) (max_length : Nat) : Nat :=
  (st.relationships.length + 1) ^ (max_length + 1) + 1

/-- Simulation-mode `Neo4jConnector.find_attack_paths`: BFS over a queue of
`(partial_path, visited_set_for_this_path)` pairs seeded with
`([source_id], {source_id})`, stopping at 10 discovered paths. -/
def find_attack_paths (st : Neo4jState) (source_id target_id : String)
    (max_length : Nat) : List (List String) :=
  bfsLoop st.relationships target_id max_length (bfsFuel st max_length)
    [] [([source_id], [source_id])]

/-- Python `d[k] = d.get(k, 0) + 1` on a counting dict with unique keys:
bump the first entry with key `k`, otherwise append `(k, 1)`. -/
def bumpCount : List (String × Nat) → String → List (String × Nat)
  | [], k => [(k, 1)]
  | (k', c) :: rest, k =>
    if k' = k then (k', c + 1) :: rest else (k', c) :: bumpCount rest k

structure ThreatStatistics where
  total_nodes : Nat
  total_relationships : Nat
  node_types : List (String × Nat)
  relationship_types : List (String × Nat)
deriving DecidableEq, Repr

/-- Simulation-mode `Neo4jConnector.get_threat_statistics`. -/
def get_threat_statistics (st : Neo4jState) : ThreatStatistics :=
  { total_nodes := st.nodes.length
    total_relationships := st.relationships.length
    node_types := st.nodes.foldl (fun m p => bumpCount m p.2.node_type) []
    relationship_types :=
      st.relationships.foldl (fun m rel => bumpCount m rel.relationship_type) [] }

/-- Sum of the counts of a type-count breakdown dict. -/
def sumCounts (m : List (String × Nat)) : Nat :=
  (m.map (·.2)).sum

/-- The on-disk snapshot document: top-level sequences `nodes` (each entry
serialized from a `ThreatNode`) and `relationships`, as written by
`_save_persistent_data` and read by `_load_persistent_data`.  The JSON
encode/decode pair is modelled as the identity on this structured document. -/
structure SnapshotDoc where
  nodes : List ThreatNode
  relationships : List ThreatRelationship
deriving DecidableEq, Repr

/-- `Neo4jConnector._save_persistent_data`: serialize `self.nodes.values()`
in dict order and `self.relationships` in list order. -/
def save_persistent_data (st : Neo4jState) : SnapshotDoc :=
  ⟨st.nodes.map (·.2), st.relationships⟩

/-- `Neo4jConnector._load_persistent_data` applied to a parsed snapshot:
`self.nodes[node.node_id] = node` for each serialized node in order, and
`self.relationships.append(rel)` for each serialized relationship in order. -/
def load_persistent_data (doc : SnapshotDoc) (st : Neo4jState) : Neo4jState :=
  { nodes := doc.nodes.foldl (fun a node => dictInsert a node.node_id node) st.nodes
    relationships := st.relationships ++ doc.relationships }

/-- A normalized crawler record as consumed by `store_crawler_records`:
a Python dict whose optional fields are modelled by `Option` (`none` means
the key is absent or `None`) and whose `metadata` sub-dict maps string keys
to string values, as declared by the crawler (`metadata: Dict[str, str]`). -/
structure CrawlerRecord where
  source : Option String
  id : Option String
  title : Option String
  summary : Option String
  severity : Option String
  published : Option String
  url : Option String
  status : Option String
  metadata : List (String × String)
deriving DecidableEq, Repr

/-- The source-to-node-type lookup of `store_crawler_records`
(default `"Campaign"`). -/
def recordNodeType (r : CrawlerRecord) : String :=
  let source := r.source.getD ""
  if source = "nvd" ∨ source = "cisa_kev" ∨ source = "github_advisories" then "CVE"
  else if source = "reddit_netsec" ∨ source = "exploit_db" then "ThreatIntelligence"
  else if source = "abuse_ch_urlhaus" ∨ source = "abuse_ch_threatfox" ∨
      source = "malwarebazaar" then "malware"
  else "Campaign"

/-- The composite node id of `store_crawler_records`:
`f"{record.get('source', 'unknown')}:{record.get('id', 'unknown')}"`. -/
def compositeKey (r : CrawlerRecord) : String :=
  r.source.getD "unknown" ++ ":" ++ r.id.getD "unknown"

/-- The pattern starts the candidate character list. -/
def charsStart : List Char → List Char → Bool
  | [], _ => true
  | _ :: _, [] => false
  | a :: as, b :: bs => a == b && charsStart as bs

/-- The pattern occurs somewhere in the candidate character list. -/
def charsContains (pat : List Char) : List Char → Bool
  | [] => charsStart pat []
  | c :: rest => charsStart pat (c :: rest) || charsContains pat rest

/-- Python substring containment `pat in s`. -/
def strContainsSub (s pat : String) : Bool :=
  charsContains pat.data s.data

/-- Python `str.strip()`: drop whitespace from both ends. -/
def pyStrip (s : String) : String :=
  ⟨((s.data.dropWhile (·.isWhitespace)).reverse.dropWhile (·.isWhitespace)).reverse⟩

/-- Python `str.upper()`: uppercase character by character. -/
def pyUpper (s : String) : String :=
  ⟨s.data.map Char.toUpper⟩

/-- Numeric value of a digit character list. -/
def digitsVal (ds : List Char) : Nat :=
  ds.foldl (fun acc c => acc * 10 + (c.toNat - 48)) 0

/-- Exact value of an unsigned decimal literal (`"9"`, `"9.8"`, `"9."`,
`".8"`) as a numerator/denominator pair with denominator a power of ten;
`none` on anything else. -/
def parseUnsignedDecimal (cs : List Char) : Option (Nat × Nat) :=
  match cs.splitOn '.' with
  | [ds] =>
    if ds ≠ [] ∧ ds.all (·.isDigit) then some (digitsVal ds, 1) else none
  | [ds, fs] =>
    if (ds ≠ [] ∨ fs ≠ []) ∧ ds.all (·.isDigit) ∧ fs.all (·.isDigit) then
      some (digitsVal ds * 10 ^ fs.length + digitsVal fs, 10 ^ fs.length)
    else none
  | _ => none

/-- Python `float(str(v).strip())` on the `cvss_score` metadata string,
modelled exactly for optionally signed decimal literals (the form the
crawler produces via `str(score)`) as a signed numerator and positive
denominator; `none` models a `ValueError`. -/
def parsePyFloat (s : String) : Option (Int × Nat) :=
  match (pyStrip s).data with
  | '+' :: rest => (parseUnsignedDecimal rest).map (fun p => ((p.1 : Int), p.2))
  | '-' :: rest => (parseUnsignedDecimal rest).map (fun p => (-(p.1 : Int), p.2))
  | cs => (parseUnsignedDecimal cs).map (fun p => ((p.1 : Int), p.2))

/-- The exact rational value of a parsed score. -/
def scoreVal (num : Int) (den : Nat) : ℚ :=
  (num : ℚ) / (den : ℚ)

/-- The `severity_raw` value of `store_crawler_records`:
`record.get("severity", "").upper() if record.get("severity") else ""`. -/
def severityRaw (r : CrawlerRecord) : String :=
  match r.severity with
  | some s => if s = "" then "" else pyUpper s
  | none => ""

/-- The CVSS-threshold branch of `store_crawler_records`:
`>= 9.0` critical, `>= 7.0` high, `>= 4.0` medium, else low, with the exact
comparison `t <= num / den` carried out by cross-multiplication. -/
def severityFromScore (num : Int) (den : Nat) : String :=
  if (9 : Int) * den ≤ num then "critical"
  else if (7 : Int) * den ≤ num then "high"
  else if (4 : Int) * den ≤ num then "medium"
  else "low"

/-- The full severity normalization of `store_crawler_records`: keyword
containment on the uppercased severity string (CRITICAL, HIGH, MEDIUM, LOW,
in that order), else the CVSS-score thresholds when `metadata.cvss_score` is
non-empty and parses, else the `"medium"` default. -/
def computeSeverity (r : CrawlerRecord) : String :=
  let step1 : Option String :=
    if strContainsSub (severityRaw r) "CRITICAL" then some "critical"
    else if strContainsSub (severityRaw r) "HIGH" then some "high"
    else if strContainsSub (severityRaw r) "MEDIUM" then some "medium"
    else if strContainsSub (severityRaw r) "LOW" then some "low"
    else none
  let step2 : Option String :=
    match step1 with
    | some s => some s
    | none =>
      let cvss_score := (r.metadata.lookup "cvss_score").getD ""
      if cvss_score = "" then none
      else
        match parsePyFloat cvss_score with
        | some (num, den) => some (severityFromScore num den)
        | none => none
  step2.getD "medium"

/-- Whether step 1 of the severity decision table fires at all: some keyword
(CRITICAL, HIGH, MEDIUM, LOW) occurs in the uppercased severity string. -/
def severityKeywordHit (r : CrawlerRecord) : Bool :=
  strContainsSub (severityRaw r) "CRITICAL" || strContainsSub (severityRaw r) "HIGH" ||
    strContainsSub (severityRaw r) "MEDIUM" || strContainsSub (severityRaw r) "LOW"

/-- Value stored for a possibly missing record field (`None` stays `None`). -/
def optVal : Option String → PValue
  | some s => PValue.vStr s
  | none => PValue.vNone

/-- The properties dict literal built by `store_crawler_records` before the
metadata block. -/
def baseProperties (r : CrawlerRecord) (severity : String) : List (String × PValue) :=
  [("name", PValue.vStr (r.title.getD (r.id.getD "Unknown"))),
   ("description", PValue.vStr (r.summary.getD "")),
   ("severity", PValue.vStr severity),
   ("discovered", optVal r.published),
   ("source", PValue.vStr (r.source.getD "unknown")),
   ("url", PValue.vStr (r.url.getD "")),
   ("status", optVal r.status)]

/-- The guarded `properties["cvss_score"] = str(cvss_val).strip()` step. -/
def addCvss (m : List (String × PValue)) (md : List (String × String)) :
    List (String × PValue) :=
  match md.lookup "cvss_score" with
  | none => m
  | some v =>
    if v ≠ "" ∧ pyStrip v ≠ "" ∧ v ≠ "None" then
      dictInsert m "cvss_score" (PValue.vStr (pyStrip v))
    else m

/-- Python `properties.update(metadata)`: insert every metadata pair in
order, new values winning on key collision. -/
def dictUpdate (m : List (String × PValue)) (md : List (String × String)) :
    List (String × PValue) :=
  md.foldl (fun a p => dictInsert a p.1 (PValue.vStr p.2)) m

/-- One `if key in metadata: properties[key] = metadata[key]` copy step. -/
def copyMetaKey (m : List (String × PValue)) (md : List (String × String))
    (k : String) : List (String × PValue) :=
  match md.lookup k with
  | some v => dictInsert m k (PValue.vStr v)
  | none => m

/-- The AI-annotation copy block of `store_crawler_records`. -/
def aiCopies (m : List (String × PValue)) (md : List (String × String)) :
    List (String × PValue) :=
  copyMetaKey (copyMetaKey (copyMetaKey (copyMetaKey (copyMetaKey m md
    "ai_risk_score") md "ai_sentiment") md "is_anomaly") md "anomaly_score")
    md "anomaly_explanation"

/-- The full properties dict computed by `store_crawler_records` for one
record: the base literal, then (when `metadata` is non-empty) the guarded
cvss copy, `properties.update(metadata)`, and the AI-annotation copies. -/
def computeProperties (r : CrawlerRecord) (severity : String) :
    List (String × PValue) :=
  if r.metadata = [] then baseProperties r severity
  else aiCopies (dictUpdate (addCvss (baseProperties r severity) r.metadata)
    r.metadata) r.metadata

/-- The `ThreatNode` built by `store_crawler_records` for one record. -/
def recordNode (r : CrawlerRecord) : ThreatNode :=
  { node_id := compositeKey r
    node_type := recordNodeType r
    properties := computeProperties r (computeSeverity r) }

/-- One iteration of the `for record in records` loop of
`store_crawler_records`: look up the composite key, store the freshly built
node via `create_node`, and report whether the key was new. -/
def storeOneRecord (st : Neo4jState) (r : CrawlerRecord) : Neo4jState × Bool :=
  (create_node st (recordNode r), (get_node st (compositeKey r)).isNone)

/-- `store_crawler_records` on the embedded store state: fold the record
batch, returning the final state and the `new_count` that the Python
function returns (`updated_count` is only logged). -/
def store_crawler_records (st : Neo4jState) (records : List CrawlerRecord) :
    Neo4jState × Nat :=
  records.foldl
    (fun acc r =>
      ((storeOneRecord acc.1 r).1,
        acc.2 + if (storeOneRecord acc.1 r).2 then 1 else 0))
    (st, 0)

/-- Modelled from the spec (§4.4): one frontier expansion of
`findRelatedNodes` — targets of relationships whose `source_id` lies on the
current frontier and which pass the optional type filter. -/
def specFrontierStep (rels : List ThreatRelationship) (relationship_type : Option String)
    (frontier : List String) : List String :=
  (rels.filter (fun rel => frontier.contains rel.source_id &&
    relMatchesB relationship_type rel)).map (·.target_id)

/-- Modelled from the spec (§4.4): all target ids produced by expanding the
frontier for up to `depth` hops. -/
def specReachLevels (rels : List ThreatRelationship) (relationship_type : Option String) :
    Nat → List String → List String
  | 0, _ => []
  | depth + 1, frontier =>
    specFrontierStep rels relationship_type frontier ++
      specReachLevels rels relationship_type depth
        (specFrontierStep rels relationship_type frontier)

/-- Modelled from the spec (§4.4): the set of distinct nodes reachable from
`node_id` in at most `max_depth` hops over (optionally filtered)
relationships, excluding the start node, duplicates removed.  Used only to
state C2 against the code's `find_related_nodes`. -/
def specRelatedNodes (st : Neo4jState) (node_id : String)
    (relationship_type : Option String) (max_depth : Nat) : List ThreatNode :=
  (((specReachLevels st.relationships relationship_type max_depth [node_id]).filter
    (· ≠ node_id)).dedup).filterMap (fun tid => st.nodes.lookup tid)

/-- A path as claim C1 describes the results of `find_attack_paths(s, t, L)`:
at most `L + 1` node ids, beginning at `s`, ending at `t`, no repeats. -/
def goodAttackPath (s t : String) (L : Nat) (p : List String) : Prop :=
  p.length ≤ L + 1 ∧ p.head? = some s ∧ p.getLast? = some t ∧ p.Nodup

/-- Invariant of one BFS queue entry `(path, visited)`: the path starts at
`s`, is simple, respects the length bound, and is covered by its visited set. -/
def queueEntryInv (s : String) (L : Nat) (e : List String × List String) : Prop :=
  e.1.head? = some s ∧ e.1.Nodup ∧ e.1.length ≤ max 1 L ∧ ∀ x ∈ e.1, x ∈ e.2

/-- Concrete graph A -USES-> B -EXPLOITS-> C used by witnesses and
counterexamples. -/
def nodeA : ThreatNode := ⟨"A", "ThreatActor", []⟩

def nodeB : ThreatNode := ⟨"B", "Malware", []⟩

def nodeC : ThreatNode := ⟨"C", "Vulnerability", []⟩

def relAB : ThreatRelationship := ⟨"A", "B", "USES", []⟩

def relBC : ThreatRelationship := ⟨"B", "C", "EXPLOITS", []⟩

def stChain : Neo4jState := ⟨[("A", nodeA), ("B", nodeB), ("C", nodeC)], [relAB, relBC]⟩

/-- Concrete store with a relationship whose target id names no stored node. -/
def stDangling : Neo4jState := ⟨[("A", nodeA), ("B", nodeB)], [relAB, ⟨"A", "ghost", "USES", []⟩]⟩

/-- Concrete crawler record (an NVD item with no severity information). -/
def rcBase : CrawlerRecord :=
  ⟨some "nvd", some "1", none, none, none, none, none, none, []⟩

/-- The same record carrying one extra metadata key. -/
def rcMeta : CrawlerRecord := { rcBase with metadata := [("foo", "bar")] }

theorem lookup_dictInsert_self {β : Type} (m : List (String × β)) (k : String) (v : β) :
    (dictInsert m k v).lookup k = some v := by
  induction m with
  | nil => simp [dictInsert, List.lookup]
  | cons p rest ih =>
    obtain ⟨k', v'⟩ := p
    by_cases h : k' = k
    · simp [dictInsert, h, List.lookup]
    · have hb : (k == k') = false := beq_eq_false_iff_ne.mpr (Ne.symm h)
      simp [dictInsert, h, List.lookup, hb, ih]

theorem mem_keys_dictInsert {β : Type} (m : List (String × β)) (k x : String) (v : β) :
    x ∈ (dictInsert m k v).map Prod.fst ↔ x ∈ m.map Prod.fst ∨ x = k := by
  induction m with
  | nil => simp [dictInsert]
  | cons p rest ih =>
    obtain ⟨k', v'⟩ := p
    by_cases h : k' = k
    · subst h
      simp [dictInsert]
      tauto
    · simp [dictInsert, h, ih]
      tauto

theorem nodup_keys_dictInsert {β : Type} (m : List (String × β)) (k : String) (v : β)
    (h : (m.map Prod.fst).Nodup) : ((dictInsert m k v).map Prod.fst).Nodup := by
  induction m with
  | nil => simp [dictInsert]
  | cons p rest ih =>
    obtain ⟨k', v'⟩ := p
    simp only [List.map_cons, List.nodup_cons] at h
    by_cases hk : k' = k
    · subst hk
      simpa [dictInsert, List.nodup_cons] using h
    · simp only [dictInsert, if_neg hk, List.map_cons, List.nodup_cons]
      refine ⟨?_, ih h.2⟩
      rw [mem_keys_dictInsert]
      rintro (hmem | rfl)
      · exact h.1 hmem
      · exact hk rfl

theorem countP_key_dictInsert {β : Type} (m : List (String × β)) (k : String) (v : β)
    (h : (m.map Prod.fst).Nodup) :
    (dictInsert m k v).countP (fun p => p.1 == k) = 1 := by
  induction m with
  | nil => simp [dictInsert, List.countP_cons]
  | cons p rest ih =>
    obtain ⟨k', v'⟩ := p
    simp only [List.map_cons, List.nodup_cons] at h
    by_cases hk : k' = k
    · subst hk
      have hzero : rest.countP (fun p => p.1 == k') = 0 := by
        rw [List.countP_eq_zero]
        intro a ha
        simp only [beq_iff_eq]
        intro hak
        exact h.1 (hak ▸ List.mem_map_of_mem Prod.fst ha)
      simp [dictInsert, List.countP_cons, hzero]
    · simp [dictInsert, hk, List.countP_cons, ih h.2]

theorem dictInsert_of_not_mem_keys {β : Type} (m : List (String × β)) (k : String) (v : β)
    (h : k ∉ m.map Prod.fst) : dictInsert m k v = m ++ [(k, v)] := by
  induction m with
  | nil => simp [dictInsert]
  | cons p rest ih =>
    obtain ⟨k', v'⟩ := p
    simp only [List.map_cons, List.mem_cons] at h
    push_neg at h
    simp [dictInsert, Ne.symm h.1, ih h.2]

theorem sumCounts_bumpCount (m : List (String × Nat)) (k : String) :
    sumCounts (bumpCount m k) = sumCounts m + 1 := by
  induction m with
  | nil => simp [bumpCount, sumCounts]
  | cons p rest ih =>
    obtain ⟨k', c⟩ := p
    by_cases h : k' = k
    · simp [bumpCount, h, sumCounts]
      omega
    · simp only [bumpCount, if_neg h, sumCounts, List.map_cons, List.sum_cons] at *
      omega

theorem sumCounts_foldl_bump {α : Type} (f : α → String) (l : List α)
    (m0 : List (String × Nat)) :
    sumCounts (l.foldl (fun m x => bumpCount m (f x)) m0) = sumCounts m0 + l.length := by
  induction l generalizing m0 with
  | nil => simp
  | cons x rest ih =>
    simp only [List.foldl_cons, List.length_cons, ih, sumCounts_bumpCount]
    omega

/-- C8: for every embedded-mode store state, the statistics returned by
`get_threat_statistics` satisfy both breakdown invariants: the per-node-type
counts sum to `total_nodes` and the per-relationship-type counts sum to
`total_relationships` (hence they hold after any sequence of creates,
upserts, and clears, each of which just produces another state). -/
theorem get_threat_statistics_consistent (st : Neo4jState) :
    sumCounts (get_threat_statistics st).node_types
        = (get_threat_statistics st).total_nodes ∧
      sumCounts (get_threat_statistics st).relationship_types
        = (get_threat_statistics st).total_relationships := by
  constructor
  · simpa [get_threat_statistics, sumCounts] using
      sumCounts_foldl_bump (fun p : String × ThreatNode => p.2.node_type) st.nodes []
  · simpa [get_threat_statistics, sumCounts] using
      sumCounts_foldl_bump (fun rel : ThreatRelationship => rel.relationship_type)
        st.relationships []

theorem load_nodes_foldl (l : List ThreatNode) (acc : List (String × ThreatNode))
    (h : (acc.map Prod.fst ++ l.map ThreatNode.node_id).Nodup) :
    l.foldl (fun a node => dictInsert a node.node_id node) acc
      = acc ++ l.map (fun n => (n.node_id, n)) := by
  induction l generalizing acc with
  | nil => simp
  | cons n rest ih =>
    have hdisj : (acc.map Prod.fst).Disjoint ((n :: rest).map ThreatNode.node_id) :=
      List.disjoint_of_nodup_append h
    have hnot : n.node_id ∉ acc.map Prod.fst := by
      intro hmem
      exact hdisj hmem (by simp)
    have h' : ((acc ++ [(n.node_id, n)]).map Prod.fst ++
        rest.map ThreatNode.node_id).Nodup := by
      have : acc.map Prod.fst ++ (n :: rest).map ThreatNode.node_id
          = (acc ++ [(n.node_id, n)]).map Prod.fst ++ rest.map ThreatNode.node_id := by
        simp
      rwa [this] at h
    rw [List.foldl_cons, dictInsert_of_not_mem_keys _ _ _ hnot, ih _ h']
    simp

/-- C6: saving via `_save_persistent_data` and loading the written snapshot
into a fresh empty store via `_load_persistent_data` reconstructs the exact
pre-save state (same node mapping, same relationship sequence in order), for
every well-formed store state (node-id keys unique and each entry keyed by
its node's own id — the invariants every reachable dict state satisfies). -/
theorem save_load_roundtrip (st : Neo4jState)
    (hkeys : (st.nodes.map Prod.fst).Nodup)
    (hid : ∀ p ∈ st.nodes, p.1 = p.2.node_id) :
    load_persistent_data (save_persistent_data st) ⟨[], []⟩ = st := by
  obtain ⟨nodes, rels⟩ := st
  simp only [load_persistent_data, save_persistent_data, List.nil_append]
  have hids : (nodes.map (·.2)).map ThreatNode.node_id = nodes.map Prod.fst := by
    rw [List.map_map]
    exact List.map_congr_left (fun p hp => ((hid p hp).symm))
  have h : (([] : List (String × ThreatNode)).map Prod.fst ++
      (nodes.map (·.2)).map ThreatNode.node_id).Nodup := by
    simpa [hids] using hkeys
  rw [load_nodes_foldl _ _ h]
  simp only [List.nil_append, List.map_map]
  congr 1
  calc nodes.map ((fun n => (n.node_id, n)) ∘ (·.2))
      = nodes.map (fun p => (p.1, p.2)) :=
        List.map_congr_left (fun p hp => by simp [(hid p hp).symm])
    _ = nodes := by simp

/-- Witness for C6 at a concrete two-node, one-relationship store. -/
theorem save_load_roundtrip_witness :
    load_persistent_data (save_persistent_data stChain) ⟨[], []⟩ = stChain :=
  save_load_roundtrip stChain (by decide) (by decide)

/-- C7 counterexample: a node with empty `node_id` and `node_type` and a
relationship with all-empty strings are constructed without any error and
ARE stored by `create_node` / `create_relationship` (the code has no
`ValidationError` and performs no validation), contradicting the claim that
such values fail at construction and are never stored. -/
theorem empty_fields_stored_counterexample :
    (create_node ⟨[], []⟩ ⟨"", "", []⟩).nodes = [("", ⟨"", "", []⟩)] ∧
      (create_relationship ⟨[], []⟩ ⟨"", "", "", []⟩).relationships
        = [⟨"", "", "", []⟩] :=
  ⟨rfl, rfl⟩

/-- C7 amended: no validation is performed anywhere — a node whose id or type
is the empty string (and a relationship with an empty source, target, or
type) is constructed successfully and stored like any other value: after
`create_node` the node mapping maps its id to it, and `create_relationship`
appends the relationship unconditionally. -/
theorem create_no_validation (st : Neo4jState) (node : ThreatNode)
    (rel : ThreatRelationship)
    (hnode : node.node_id = "" ∨ node.node_type = "")
    (hrel : rel.source_id = "" ∨ rel.target_id = "" ∨ rel.relationship_type = "") :
    (create_node st node).nodes.lookup node.node_id = some node ∧
      (create_relationship st rel).relationships = st.relationships ++ [rel] :=
  ⟨lookup_dictInsert_self st.nodes node.node_id node, rfl⟩

/-- Witness for C7 amended at the empty store with all-empty values. -/
theorem create_no_validation_witness :
    (create_node ⟨[], []⟩ ⟨"", "", []⟩).nodes.lookup "" = some ⟨"", "", []⟩ ∧
      (create_relationship ⟨[], []⟩ ⟨"", "", "", []⟩).relationships
        = ([] : List ThreatRelationship) ++ [⟨"", "", "", []⟩] :=
  create_no_validation ⟨[], []⟩ ⟨"", "", []⟩ ⟨"", "", "", []⟩ (Or.inl rfl) (Or.inl rfl)

/-- C9: for every store state, every node id `s` and every bound `L`,
`find_attack_paths(s, s, L)` returns exactly the single trivial path `[s]`:
the seed path already ends at the target, is emitted, and the queue is then
empty — regardless of the relationships and of whether `s` is a stored node. -/
theorem find_attack_paths_self (st : Neo4jState) (s : String) (L : Nat) :
    find_attack_paths st s s L = [[s]] := by
  simp [find_attack_paths, bfsFuel, bfsLoop, List.getLastD]

/-- C3: ingesting the same record twice through `store_crawler_records` (on
any store whose dict keys are unique, as every dict state's are) leaves
exactly one entry for the record's composite key `source:id`, the second
ingestion returns a "new" count of zero, and the stored node afterwards is
exactly the node computed from the most recent ingestion. -/
theorem store_crawler_records_idempotent (st : Neo4jState) (r : CrawlerRecord)
    (hkeys : (st.nodes.map Prod.fst).Nodup) :
    (store_crawler_records (store_crawler_records st [r]).1 [r]).2 = 0 ∧
      ((store_crawler_records (store_crawler_records st [r]).1 [r]).1).nodes.countP
        (fun p => p.1 == compositeKey r) = 1 ∧
      ((store_crawler_records (store_crawler_records st [r]).1 [r]).1).nodes.lookup
        (compositeKey r) = some (recordNode r) := by
  have hkey : (recordNode r).node_id = compositeKey r := rfl
  simp only [store_crawler_records, List.foldl_cons, List.foldl_nil, storeOneRecord,
    create_node, get_node, hkey]
  refine ⟨?_, ?_, ?_⟩
  · simp [lookup_dictInsert_self]
  · exact countP_key_dictInsert _ _ _ (nodup_keys_dictInsert st.nodes _ _ hkeys)
  · exact lookup_dictInsert_self _ _ _

/-- Witness for C3: the NVD record ingested twice into the empty store. -/
theorem store_crawler_records_idempotent_witness :
    (store_crawler_records (store_crawler_records ⟨[], []⟩ [rcBase]).1 [rcBase]).2 = 0 ∧
      ((store_crawler_records (store_crawler_records ⟨[], []⟩ [rcBase]).1
          [rcBase]).1).nodes.countP (fun p => p.1 == compositeKey rcBase) = 1 ∧
      ((store_crawler_records (store_crawler_records ⟨[], []⟩ [rcBase]).1
          [rcBase]).1).nodes.lookup (compositeKey rcBase) = some (recordNode rcBase) :=
  store_crawler_records_idempotent ⟨[], []⟩ rcBase (by decide)

/-- C4 counterexample: re-ingesting the composite key `nvd:1` with a record
whose metadata no longer carries the key `"foo"` DROPS the previously stored
property `"foo"` instead of retaining it — after the first ingestion the
stored node maps `"foo"` to `"bar"`, after the second the key is gone, so
old keys absent from the new computed properties are not retained. -/
theorem upsert_merge_counterexample :
    (((store_crawler_records ⟨[], []⟩ [rcMeta]).1).nodes.lookup "nvd:1").map
        (fun n => n.properties.lookup "foo") = some (some (PValue.vStr "bar")) ∧
      (((store_crawler_records (store_crawler_records ⟨[], []⟩ [rcMeta]).1
          [rcBase]).1).nodes.lookup "nvd:1").map
        (fun n => n.properties.lookup "foo") = some none := by
  decide

/-- C4 amended: when the composite key already names a stored node, ingestion
replaces that node's properties wholesale with the newly computed properties
(new values trivially win; old keys absent from the newly computed
properties are dropped, not retained). -/
theorem store_crawler_records_replaces (st : Neo4jState) (r : CrawlerRecord)
    (old : ThreatNode) (hold : st.nodes.lookup (compositeKey r) = some old) :
    ((store_crawler_records st [r]).1).nodes.lookup (compositeKey r)
      = some (recordNode r) := by
  have hkey : (recordNode r).node_id = compositeKey r := rfl
  simp only [store_crawler_records, List.foldl_cons, List.foldl_nil, storeOneRecord,
    create_node, hkey]
  exact lookup_dictInsert_self _ _ _

/-- Witness for C4 amended: re-ingesting `nvd:1` over its stored node. -/
theorem store_crawler_records_replaces_witness :
    ((store_crawler_records (store_crawler_records ⟨[], []⟩ [rcMeta]).1
        [rcBase]).1).nodes.lookup (compositeKey rcBase) = some (recordNode rcBase) :=
  store_crawler_records_replaces (store_crawler_records ⟨[], []⟩ [rcMeta]).1 rcBase
    (recordNode rcMeta) (by decide)

theorem relatedLoop_eq_filterMap (st : Neo4jState) (node_id : String)
    (rt : Option String) (rels : List ThreatRelationship) :
    relatedLoop st node_id rt rels = rels.filterMap (fun rel =>
      if rel.source_id = node_id ∧ relMatchesB rt rel then
        st.nodes.lookup rel.target_id
      else none) := by
  induction rels with
  | nil => rfl
  | cons rel rest ih =>
    by_cases h : rel.source_id = node_id ∧ relMatchesB rt rel
    · cases hl : st.nodes.lookup rel.target_id <;>
        simp [relatedLoop, h, List.filterMap_cons, hl, ih]
    · simp [relatedLoop, h, List.filterMap_cons, ih]

/-- C2 counterexample: in the chain A -USES-> B -EXPLOITS-> C with
`max_depth = 2`, node C is reachable from A within 2 hops under the spec's
depth-parametrized semantics, but `find_related_nodes` ignores `max_depth`
and returns only the 1-hop neighbor B, so the claimed set equality fails. -/
theorem find_related_depth_counterexample :
    nodeC ∈ specRelatedNodes stChain "A" none 2 ∧
      nodeC ∉ find_related_nodes stChain "A" none 2 := by
  decide

/-- C2 amended: `find_related_nodes(id, rt, d)` ignores `max_depth` and
performs a single-hop scan — it returns, in relationship-sequence order, the
stored node for each relationship whose `source_id` equals `id`, which
passes the optional type filter, and whose `target_id` is present in the
node mapping (duplicates retained), and the result is independent of the
`max_depth` argument. -/
theorem find_related_nodes_single_hop (st : Neo4jState) (node_id : String)
    (relationship_type : Option String) (d d' : Nat) :
    find_related_nodes st node_id relationship_type d =
        st.relationships.filterMap (fun rel =>
          if rel.source_id = node_id ∧ relMatchesB relationship_type rel then
            st.nodes.lookup rel.target_id
          else none) ∧
      find_related_nodes st node_id relationship_type d =
        find_related_nodes st node_id relationship_type d' :=
  ⟨relatedLoop_eq_filterMap st node_id relationship_type st.relationships, rfl⟩

/-- C10: every node returned by `find_related_nodes` is a value of the
store's node mapping, and relationships whose `target_id` is absent from the
node mapping contribute nothing — dropping them from the relationship
sequence leaves the result unchanged (they are skipped silently, with no
error and no placeholder). -/
theorem find_related_nodes_in_store (st : Neo4jState) (node_id : String)
    (relationship_type : Option String) (max_depth : Nat) :
    (∀ n ∈ find_related_nodes st node_id relationship_type max_depth,
        ∃ k, st.nodes.lookup k = some n) ∧
      find_related_nodes st node_id relationship_type max_depth =
        find_related_nodes
          ⟨st.nodes, st.relationships.filter
            (fun rel => (st.nodes.lookup rel.target_id).isSome)⟩
          node_id relationship_type max_depth := by
  constructor
  · intro n hn
    rw [find_related_nodes, relatedLoop_eq_filterMap] at hn
    obtain ⟨rel, _, hrel⟩ := List.mem_filterMap.mp hn
    by_cases h : rel.source_id = node_id ∧ relMatchesB relationship_type rel
    · rw [if_pos h] at hrel
      exact ⟨rel.target_id, hrel⟩
    · rw [if_neg h] at hrel
      exact absurd hrel (by simp)
  · show relatedLoop st node_id relationship_type st.relationships
      = relatedLoop ⟨st.nodes, _⟩ node_id relationship_type
          (st.relationships.filter fun rel => (st.nodes.lookup rel.target_id).isSome)
    rw [relatedLoop_eq_filterMap, relatedLoop_eq_filterMap]
    induction st.relationships with
    | nil => rfl
    | cons rel rest ih =>
      by_cases hm : (st.nodes.lookup rel.target_id).isSome
      · simp only [List.filter_cons, hm, List.filterMap_cons]
        cases hc : (if rel.source_id = node_id ∧ relMatchesB relationship_type rel then
            st.nodes.lookup rel.target_id else none) <;> simp [hc, ih]
      · have hnone : st.nodes.lookup rel.target_id = none := by
          cases h : st.nodes.lookup rel.target_id
          · rfl
          · rw [h] at hm; simp at hm
        have hm' : (st.nodes.lookup rel.target_id).isSome = false := by
          simp [hnone]
        have hf : (if rel.source_id = node_id ∧ relMatchesB relationship_type rel then
            st.nodes.lookup rel.target_id else none) = none := by
          split <;> simp [hnone]
        simp only [List.filter_cons, hm', List.filterMap_cons, hf, ih,
          Bool.false_eq_true, if_false]

/-- Witness for C10: the dangling relationship A -> ghost in `stDangling`
contributes nothing, and the returned node B is a stored value. -/
theorem find_related_nodes_in_store_witness :
    ∃ k, stDangling.nodes.lookup k = some nodeB :=
  (find_related_nodes_in_store stDangling "A" none 1).1 nodeB (by decide)

theorem getLast?_eq_getLastD {α : Type} (p : List α) (d : α) (h : p ≠ []) :
    p.getLast? = some (p.getLastD d) := by
  obtain ⟨y, hy⟩ := Option.isSome_iff_exists.mp (List.getLast?_isSome.mpr h)
  rw [List.getLastD_eq_getLast?, hy]
  rfl

theorem head?_append_singleton {α : Type} (p : List α) (x : α) (h : p ≠ []) :
    (p ++ [x]).head? = p.head? := by
  cases p with
  | nil => exact absurd rfl h
  | cons a l => rfl

theorem nodup_append_singleton {α : Type} (l : List α) (x : α) :
    (l ++ [x]).Nodup ↔ l.Nodup ∧ x ∉ l := by
  induction l with
  | nil => simp
  | cons a t ih =>
    simp only [List.cons_append, List.nodup_cons, ih, List.mem_append,
      List.mem_singleton, List.mem_cons]
    tauto

theorem bfsLoop_good (rels : List ThreatRelationship) (s t : String) (L : Nat) :
    ∀ (fuel : Nat) (paths : List (List String))
      (queue : List (List String × List String)),
      (∀ p ∈ paths, goodAttackPath s t L p) → paths.length ≤ 10 →
      (∀ e ∈ queue, queueEntryInv s L e) →
      (∀ p ∈ bfsLoop rels t L fuel paths queue, goodAttackPath s t L p) ∧
        (bfsLoop rels t L fuel paths queue).length ≤ 10 := by
  intro fuel
  induction fuel with
  | zero =>
    intro paths queue hp hlen _
    cases queue with
    | nil => exact ⟨hp, hlen⟩
    | cons e rest => exact ⟨hp, hlen⟩
  | succ fuel ih =>
    intro paths queue hp hlen hq
    cases queue with
    | nil => exact ⟨hp, hlen⟩
    | cons e rest =>
      obtain ⟨path, visited⟩ := e
      obtain ⟨hhead, hnodup, hlenp, hsub⟩ := hq (path, visited) (by simp)
      have hne : path ≠ [] := by
        intro h
        rw [h] at hhead
        simp at hhead
      simp only [bfsLoop]
      by_cases hcap : 10 ≤ paths.length
      · simp only [if_pos hcap]
        exact ⟨hp, hlen⟩
      · simp only [if_neg hcap]
        by_cases htgt : path.getLastD "" = t
        · simp only [if_pos htgt]
          apply ih
          · intro p hpmem
            rcases List.mem_append.mp hpmem with h | h
            · exact hp p h
            · simp only [List.mem_singleton] at h
              subst h
              refine ⟨?_, hhead, ?_, hnodup⟩
              · have h1 : p.length ≤ max 1 L := hlenp
                have h2 : max 1 L ≤ L + 1 := by omega
                omega
              · rw [getLast?_eq_getLastD p "" hne, htgt]
          · simp only [List.length_append, List.length_singleton]
            omega
          · intro e he
            exact hq e (by simp [he])
        · simp only [if_neg htgt]
          by_cases hlong : L ≤ path.length
          · simp only [if_pos hlong]
            exact ih paths rest hp hlen (fun e he => hq e (by simp [he]))
          · simp only [if_neg hlong]
            apply ih paths _ hp hlen
            intro e he
            rcases List.mem_append.mp he with h | h
            · exact hq e (by simp [h])
            · obtain ⟨rel, _, hrel⟩ := List.mem_filterMap.mp h
              by_cases hc : rel.source_id = path.getLastD "" ∧ rel.target_id ∉ visited
              · rw [if_pos hc] at hrel
                obtain rfl : (path ++ [rel.target_id], visited ++ [rel.target_id]) = e :=
                  Option.some_injective _ hrel
                have htgtp : rel.target_id ∉ path := fun hm => hc.2 (hsub _ hm)
                refine ⟨?_, ?_, ?_, ?_⟩
                · rw [head?_append_singleton path _ hne]
                  exact hhead
                · exact (nodup_append_singleton path rel.target_id).mpr ⟨hnodup, htgtp⟩
                · simp only [List.length_append, List.length_singleton]
                  have : path.length + 1 ≤ L := by omega
                  have hmax : L ≤ max 1 L := le_max_right 1 L
                  omega
                · intro x hx
                  rcases List.mem_append.mp hx with hxp | hxt
                  · exact List.mem_append_left _ (hsub x hxp)
                  · exact List.mem_append_right _ hxt
              · rw [if_neg hc] at hrel
                cases hrel

/-- C1: every path returned by `find_attack_paths(s, t, L)` has at most
`L + 1` nodes, begins at `s`, ends at `t`, and contains no repeated node id,
and the returned sequence contains at most 10 paths — for every embedded
store state, all node ids, and every bound. -/
theorem find_attack_paths_spec (st : Neo4jState) (s t : String) (L : Nat) :
    (∀ p ∈ find_attack_paths st s t L,
        p.length ≤ L + 1 ∧ p.head? = some s ∧ p.getLast? = some t ∧ p.Nodup) ∧
      (find_attack_paths st s t L).length ≤ 10 := by
  apply bfsLoop_good
  · intro p hp
    cases hp
  · simp
  · intro e he
    simp only [List.mem_singleton] at he
    subst he
    refine ⟨rfl, by simp, by simp, by simp⟩

/-- Witness for C1: the unique path of `find_attack_paths stChain A C 5`
satisfies all four properties. -/
theorem find_attack_paths_spec_witness :
    (["A", "B", "C"] : List String).length ≤ 5 + 1 ∧
      (["A", "B", "C"] : List String).head? = some "A" ∧
      (["A", "B", "C"] : List String).getLast? = some "C" ∧
      (["A", "B", "C"] : List String).Nodup :=
  (find_attack_paths_spec stChain "A" "C" 5).1 ["A", "B", "C"] (by decide)

theorem parseUnsignedDecimal_den_pos (cs : List Char) (p : Nat × Nat)
    (h : parseUnsignedDecimal cs = some p) : 0 < p.2 := by
  unfold parseUnsignedDecimal at h
  split at h
  · split at h
    · obtain rfl : (_, 1) = p := Option.some_injective _ h
      exact Nat.one_pos
    · cases h
  · split at h
    · obtain rfl : (_, _) = p := Option.some_injective _ h
      exact pow_pos (by norm_num) _
    · cases h
  · cases h

theorem parsePyFloat_den_pos (s : String) (num : Int) (den : Nat)
    (h : parsePyFloat s = some (num, den)) : 0 < den := by
  unfold parsePyFloat at h
  split at h <;>
  · obtain ⟨p, hp, hf⟩ := Option.map_eq_some'.mp h
    have hpos := parseUnsignedDecimal_den_pos _ p hp
    have hden : p.2 = den := (Prod.ext_iff.mp hf).2
    omega

theorem parsePyFloat_empty : parsePyFloat "" = none := rfl

theorem severityFromScore_eq_rat (num : Int) (den : Nat) (hd : 0 < den) :
    severityFromScore num den =
      if (9 : ℚ) ≤ scoreVal num den then "critical"
      else if (7 : ℚ) ≤ scoreVal num den then "high"
      else if (4 : ℚ) ≤ scoreVal num den then "medium"
      else "low" := by
  have hdq : (0 : ℚ) < (den : ℚ) := by exact_mod_cast hd
  have hiff : ∀ a : Int, ((a : ℚ) ≤ scoreVal num den) ↔ (a * den ≤ num) := by
    intro a
    rw [scoreVal, le_div_iff₀ hdq]
    constructor <;> intro h <;> exact_mod_cast h
  have h9 := hiff 9
  have h7 := hiff 7
  have h4 := hiff 4
  push_cast at h9 h7 h4
  simp only [severityFromScore, ← h9, ← h7, ← h4]

/-- C5: the severity stored for every ingested record follows the three-step
decision table in order — keyword containment in the uppercased severity
string (CRITICAL, HIGH, MEDIUM, LOW, in that order), else the CVSS-score
thresholds (`>= 9` critical, `>= 7` high, `>= 4` medium, else low) when
`metadata.cvss_score` parses as a number, else the default `"medium"` —
including the claim's concrete instances (`cvss_score "9.8"` gives critical,
severity `"High"` gives high, empty metadata gives medium). -/
theorem computeSeverity_table (r : CrawlerRecord) (num : Int) (den : Nat) :
    (strContainsSub (severityRaw r) "CRITICAL" = true →
        computeSeverity r = "critical") ∧
      (strContainsSub (severityRaw r) "CRITICAL" = false →
        strContainsSub (severityRaw r) "HIGH" = true →
        computeSeverity r = "high") ∧
      (strContainsSub (severityRaw r) "CRITICAL" = false →
        strContainsSub (severityRaw r) "HIGH" = false →
        strContainsSub (severityRaw r) "MEDIUM" = true →
        computeSeverity r = "medium") ∧
      (strContainsSub (severityRaw r) "CRITICAL" = false →
        strContainsSub (severityRaw r) "HIGH" = false →
        strContainsSub (severityRaw r) "MEDIUM" = false →
        strContainsSub (severityRaw r) "LOW" = true →
        computeSeverity r = "low") ∧
      (severityKeywordHit r = false →
        parsePyFloat ((r.metadata.lookup "cvss_score").getD "") = some (num, den) →
        computeSeverity r =
          if (9 : ℚ) ≤ scoreVal num den then "critical"
          else if (7 : ℚ) ≤ scoreVal num den then "high"
          else if (4 : ℚ) ≤ scoreVal num den then "medium"
          else "low") ∧
      (severityKeywordHit r = false →
        parsePyFloat ((r.metadata.lookup "cvss_score").getD "") = none →
        computeSeverity r = "medium") ∧
      computeSeverity { rcBase with metadata := [("cvss_score", "9.8")] }
        = "critical" ∧
      computeSeverity { rcBase with severity := some "High" } = "high" ∧
      computeSeverity rcBase = "medium" := by
  refine ⟨?_, ?_, ?_, ?_, ?_, ?_, by decide, by decide, by decide⟩
  · intro hC
    simp [computeSeverity, hC]
  · intro hC hH
    simp [computeSeverity, hC, hH]
  · intro hC hH hM
    simp [computeSeverity, hC, hH, hM]
  · intro hC hH hM hL
    simp [computeSeverity, hC, hH, hM, hL]
  · intro hkw hparse
    have hks : strContainsSub (severityRaw r) "CRITICAL" = false ∧
        strContainsSub (severityRaw r) "HIGH" = false ∧
        strContainsSub (severityRaw r) "MEDIUM" = false ∧
        strContainsSub (severityRaw r) "LOW" = false := by
      simpa [severityKeywordHit, Bool.or_eq_false_iff, and_assoc] using hkw
    obtain ⟨h1, h2, h3, h4⟩ := hks
    by_cases hcvss : ((r.metadata.lookup "cvss_score").getD "") = ""
    · rw [hcvss, parsePyFloat_empty] at hparse
      cases hparse
    · rw [← severityFromScore_eq_rat num den (parsePyFloat_den_pos _ _ _ hparse)]
      simp [computeSeverity, h1, h2, h3, h4, hcvss, hparse]
  · intro hkw hparse
    have hks : strContainsSub (severityRaw r) "CRITICAL" = false ∧
        strContainsSub (severityRaw r) "HIGH" = false ∧
        strContainsSub (severityRaw r) "MEDIUM" = false ∧
        strContainsSub (severityRaw r) "LOW" = false := by
      simpa [severityKeywordHit, Bool.or_eq_false_iff, and_assoc] using hkw
    obtain ⟨h1, h2, h3, h4⟩ := hks
    by_cases hcvss : ((r.metadata.lookup "cvss_score").getD "") = ""
    · simp [computeSeverity, h1, h2, h3, h4, hcvss]
    · simp [computeSeverity, h1, h2, h3, h4, hcvss, hparse]

/-- Witness for C5: the keyword branch fires on a record whose severity
string is `"Critical"`, and the default branch fires on the bare NVD record. -/
theorem computeSeverity_table_witness :
    computeSeverity { rcBase with severity := some "Critical" } = "critical" ∧
      computeSeverity rcBase = "medium" :=
  ⟨(computeSeverity_table { rcBase with severity := some "Critical" } 0 1).1
      (by decide),
    (computeSeverity_table rcBase 0 1).2.2.2.2.2.1 (by decide) (by decide)⟩

end Vajra
